import Mathlib

/-!
Verification of the `goroom` room-hub library against its specification.

The Go source is shallowly embedded: Go maps become association lists with
unique keys, `time.Time` / `time.Duration` become `Int` (seconds), byte
payloads become `List Nat`, and the optional lifecycle callbacks of
`Options` are modelled by presence flags together with an explicit trace of
callback invocations.  Calling a nil Go function value or a method on a nil
interface value panics at runtime; operations therefore also report a
`panicked` flag (or return the partial output produced before the panic).
-/

namespace GoRoom

/-- Byte payloads (`[]byte` in the source). -/
abbrev Bytes := List Nat

/-- Identity of a live `SocketSession`; room-level operations only ever
compare sessions against `nil` and enqueue onto their send queue, so a bare
identifier suffices. -/
abbrev SessionId := Nat

/-- `RoomStatus` from `room-status.go` (`Inactive = -1`, `Open = 0`,
`Locked = 1`). -/
inductive RoomStatus where
  | Inactive
  | Open
  | Locked
  deriving DecidableEq, Repr

/-- Go map read `v, ok := m[k]`: `none` means `ok = false`. -/
def mapLookup {K V : Type} [DecidableEq K] : List (K × V) → K → Option V
  | [], _ => none
  | (k, v) :: rest, key => if k = key then some v else mapLookup rest key

/-- Go map assignment `m[k] = v`: overwrite the binding if present, else add
one. -/
def mapInsert {K V : Type} [DecidableEq K] : List (K × V) → K → V → List (K × V)
  | [], key, v => [(key, v)]
  | (k, w) :: rest, key, v =>
    if k = key then (key, v) :: rest else (k, w) :: mapInsert rest key v

/-- Go `delete(m, k)`. -/
def mapErase {K V : Type} [DecidableEq K] : List (K × V) → K → List (K × V)
  | [], _ => []
  | (k, w) :: rest, key => if k = key then rest else (k, w) :: mapErase rest key

/-- The `Options` configuration from `room.go`.  Each callback field of the
Go struct is a function value that may be nil; here a `Bool` records whether
the callback was supplied, and invocations are traced as `CallEvent`s. -/
structure Options (PID : Type) where
  OnConnect : Bool
  OnDisconnect : Bool
  OnRemove : Bool
  OnMessage : Bool
  CleanupPeriod : Int
  deriving DecidableEq, Repr

/-- One traced invocation of a user callback. -/
inductive CallEvent (PID : Type) where
  | OnConnect (player : PID)
  | OnDisconnect (player : PID)
  | OnMessage (player : PID) (message : Bytes)
  | OnRemove (player : PID)
  deriving DecidableEq, Repr

/-- The lock-guarded state of a `Room` from `room.go`: status, the
`players` map (value `none` is a nil session slot, the spec's `⊥`), the
`lastSeen` map, and the effective cleanup period. -/
structure Room (PID : Type) where
  Status : RoomStatus
  players : List (PID × Option SessionId)
  lastSeen : List (PID × Int)
  cleanupPeriod : Int
  opts : Options PID
  deriving DecidableEq, Repr

/-- `defaultCleanupPeriod` (30 seconds) from `room.go`. -/
def defaultCleanupPeriod : Int := 30

/-- `NewRoom` from `room.go`: status starts `Open`, both maps empty, and the
cleanup period defaults to 30 s exactly when the configured value is 0. -/
def NewRoom {PID : Type} (opts : Options PID) : Room PID :=
  { Status := RoomStatus.Open
    players := []
    lastSeen := []
    cleanupPeriod :=
      if opts.CleanupPeriod = 0 then defaultCleanupPeriod else opts.CleanupPeriod
    opts := opts }

/-- `CanJoin` from `handle-socket.go`: reject when Inactive; reject a player
that is present with a non-nil session; reject an unknown player when
Locked; otherwise admit. -/
def CanJoin {PID : Type} [DecidableEq PID] (room : Room PID) (playerId : PID) : Bool :=
  if room.Status = RoomStatus.Inactive then false
  else
    match mapLookup room.players playerId with
    | some (some _) => false
    | some none => true
    | none => if room.Status = RoomStatus.Locked then false else true

/-- Result of a room operation: the updated room state, the trace of user
callbacks actually invoked, and whether the operation (or a goroutine it
spawned) panicked by calling a nil callback. -/
structure OpResult (PID : Type) where
  room : Room PID
  calls : List (CallEvent PID)
  panicked : Bool
  deriving DecidableEq, Repr

/-- `SendMessageToPlayer` from `room.go`: look the player up; a missing key
returns silently; otherwise call `Send` on the stored session — a method
call on a nil interface value, hence a panic, when the slot is nil.  Returns
the deliveries `(sessionId, payload)` performed and the panic flag. -/
def SendMessageToPlayer {PID : Type} [DecidableEq PID] (room : Room PID)
    (player : PID) (message : Bytes) : List (SessionId × Bytes) × Bool :=
  match mapLookup room.players player with
  | none => ([], false)
  | some none => ([], true)
  | some (some sid) => ([(sid, message)], false)

/-- The loop of `SendMessageToAllPlayers`: skip nil slots, enqueue on every
live session. -/
def sendAll {PID : Type} : List (PID × Option SessionId) → Bytes →
    List (SessionId × Bytes)
  | [], _ => []
  | (_, none) :: rest, msg => sendAll rest msg
  | (_, some sid) :: rest, msg => (sid, msg) :: sendAll rest msg

/-- `SendMessageToAllPlayers` from `room.go`. -/
def SendMessageToAllPlayers {PID : Type} (room : Room PID) (message : Bytes) :
    List (SessionId × Bytes) :=
  sendAll room.players message

/-- `SocketMessageType` from `socket-session.go` (`Disconnect = -1`,
`Message = 1`). -/
inductive SocketMessageType where
  | Disconnect
  | Message
  deriving DecidableEq, Repr

/-- `SocketMessage` from `socket-session.go`.  The Go field `Type` is a
reserved word in Lean and is rendered `MsgType`. -/
structure SocketMessage (PID : Type) where
  ReferenceID : PID
  MsgType : SocketMessageType
  Message : Bytes
  deriving DecidableEq, Repr

/-- One step of the `Start` event loop on an incoming `SocketMessage`
(`room.go`): a `Disconnect` event sets the player's slot to nil — a Go map
assignment, which inserts the key when absent — and stamps `lastSeen` with
the current time, then spawns `OnDisconnect`; a `Message` event spawns
`OnMessage`.  Neither spawn is nil-guarded, so a missing callback panics. -/
def handleEvent {PID : Type} [DecidableEq PID] (room : Room PID)
    (msg : SocketMessage PID) (now : Int) : OpResult PID :=
  match msg.MsgType with
  | SocketMessageType.Disconnect =>
    { room := { room with
        players := mapInsert room.players msg.ReferenceID none
        lastSeen := mapInsert room.lastSeen msg.ReferenceID now }
      calls :=
        if room.opts.OnDisconnect then [CallEvent.OnDisconnect msg.ReferenceID] else []
      panicked := !room.opts.OnDisconnect }
  | SocketMessageType.Message =>
    { room := room
      calls :=
        if room.opts.OnMessage then [CallEvent.OnMessage msg.ReferenceID msg.Message]
        else []
      panicked := !room.opts.OnMessage }

/-- The removal condition of the `CleanUpPlayers` loop body:
`p == nil && time.Since(room.lastSeen[playerID]) > room.cleanupPeriod`
(a Go map miss reads the zero time). -/
def staleEntry {PID : Type} [DecidableEq PID] (lastSeen : List (PID × Int))
    (cleanupPeriod now : Int) (e : PID × Option SessionId) : Bool :=
  e.2 = none ∧ now - (mapLookup lastSeen e.1).getD 0 > cleanupPeriod

/-- The sweep loop of `CleanUpPlayers` over the `players` map: drop each
nil-session entry whose `lastSeen` stamp is more than `cleanupPeriod` old,
collecting the removed ids. -/
def cleanUpSweep {PID : Type} [DecidableEq PID] (lastSeen : List (PID × Int))
    (cleanupPeriod now : Int) :
    List (PID × Option SessionId) → List (PID × Option SessionId) × List PID
  | [] => ([], [])
  | (pid, p) :: rest =>
    let (m, removed) := cleanUpSweep lastSeen cleanupPeriod now rest
    if staleEntry lastSeen cleanupPeriod now (pid, p) then (m, pid :: removed)
    else ((pid, p) :: m, removed)

/-- `CleanUpPlayers` from `room.go`: a no-op unless the room is Open;
otherwise sweep the `players` map.  The spawned `OnRemove` goroutine checks
the callback for nil, so a missing callback is dropped without panicking.
The source deletes only from `players`; `lastSeen` is left untouched. -/
def CleanUpPlayers {PID : Type} [DecidableEq PID] (room : Room PID) (now : Int) :
    OpResult PID :=
  if room.Status ≠ RoomStatus.Open then { room := room, calls := [], panicked := false }
  else
    let (m, removed) := cleanUpSweep room.lastSeen room.cleanupPeriod now room.players
    { room := { room with players := m }
      calls := if room.opts.OnRemove then removed.map CallEvent.OnRemove else []
      panicked := false }

/-- The purge loop of `SetStatus(Locked)`: split the `players` map into the
retained connected entries and the removed nil-session ids. -/
def lockPurge {PID : Type} :
    List (PID × Option SessionId) → List (PID × Option SessionId) × List PID
  | [] => ([], [])
  | (pid, none) :: rest =>
    let (m, removed) := lockPurge rest
    (m, pid :: removed)
  | (pid, some sid) :: rest =>
    let (m, removed) := lockPurge rest
    ((pid, some sid) :: m, removed)

/-- Delete a list of keys from a Go map. -/
def mapEraseAll {K V : Type} [DecidableEq K] (m : List (K × V)) (keys : List K) :
    List (K × V) :=
  keys.foldl mapErase m

/-- `SetStatus` from `room.go`: no-op when the status is unchanged;
otherwise set it, and on a transition to `Locked` delete every nil-session
member from both maps, spawning `OnRemove` — unguarded, hence a panic when
the callback is nil — for each removed id. -/
def SetStatus {PID : Type} [DecidableEq PID] (room : Room PID)
    (status : RoomStatus) : OpResult PID :=
  if room.Status = status then { room := room, calls := [], panicked := false }
  else if status = RoomStatus.Locked then
    let (m, removed) := lockPurge room.players
    { room := { room with
        Status := status
        players := m
        lastSeen := mapEraseAll room.lastSeen removed }
      calls := if room.opts.OnRemove then removed.map CallEvent.OnRemove else []
      panicked := !room.opts.OnRemove && !removed.isEmpty }
  else { room := { room with Status := status }, calls := [], panicked := false }

/-- First loop of `SetPlayers`: add a nil-session binding for each listed id
not already present in the map. -/
def insertMissing {PID : Type} [DecidableEq PID] :
    List (PID × Option SessionId) → List PID → List (PID × Option SessionId)
  | m, [] => m
  | m, pid :: rest =>
    if (mapLookup m pid).isSome then insertMissing m rest
    else insertMissing (m ++ [(pid, none)]) rest

/-- The removal condition of the second `SetPlayers` loop: the member is
not in the new list and its session slot is non-nil. -/
def unlistedConnected {PID : Type} [DecidableEq PID] (keep : List PID)
    (e : PID × Option SessionId) : Bool :=
  !(decide (e.1 ∈ keep)) && e.2.isSome

/-- Second loop of `SetPlayers`: a member not in the new list is kept when
its session slot is nil (`continue`), and otherwise closed and removed,
collecting the closed sessions and removed ids. -/
def dropUnlisted {PID : Type} [DecidableEq PID] (keep : List PID) :
    List (PID × Option SessionId) →
    List (PID × Option SessionId) × List SessionId × List PID
  | [] => ([], [], [])
  | (pid, p) :: rest =>
    let (m, closed, removed) := dropUnlisted keep rest
    if pid ∈ keep then ((pid, p) :: m, closed, removed)
    else
      match p with
      | none => ((pid, none) :: m, closed, removed)
      | some sid => (m, sid :: closed, pid :: removed)

/-- Result of `SetPlayers`: updated room, callback trace, sessions closed,
panic flag. -/
structure SetPlayersResult (PID : Type) where
  room : Room PID
  calls : List (CallEvent PID)
  closed : List SessionId
  panicked : Bool
  deriving DecidableEq, Repr

/-- `SetPlayers` from `room.go`: insert every listed id that is absent with
a nil slot, then drop members not in the list — only the connected ones:
nil slots are skipped — closing their sessions, deleting them from both
maps, and spawning `OnRemove` (unguarded) for each. -/
def SetPlayers {PID : Type} [DecidableEq PID] (room : Room PID)
    (players : List PID) : SetPlayersResult PID :=
  let m1 := insertMissing room.players players
  let (m2, closed, removed) := dropUnlisted players m1
  { room := { room with
      players := m2
      lastSeen := mapEraseAll room.lastSeen removed }
    calls := if room.opts.OnRemove then removed.map CallEvent.OnRemove else []
    closed := closed
    panicked := !room.opts.OnRemove && !removed.isEmpty }

/-- `PlayerPresence` record. -/
structure PlayerPresence (PID : Type) where
  ID : PID
  IsConnected : Bool
  LastSeen : Int
  deriving DecidableEq, Repr

/-- `GetPlayerPresence` from `room.go`: one entry per member of the
`players` map; the struct literal in the source sets only `ID` and
`IsConnected`, leaving `LastSeen` at its zero value. -/
def GetPlayerPresence {PID : Type} (room : Room PID) : List (PlayerPresence PID) :=
  room.players.map (fun e => { ID := e.1, IsConnected := e.2.isSome, LastSeen := 0 })

/-- One result of `wsutil.ReadClientData` on the transport: a payload, or an
error (clean close and abrupt failure are treated alike by the loop). -/
inductive ReadResult where
  | ok (message : Bytes)
  | readErr
  deriving DecidableEq, Repr

/-- `ReadLoop` from `socket-session.go` over a finite trace of transport
reads: emit a `Message` event per successful read, in order; on the first
error emit the single `Disconnect` event (`unregisterMessage`, nil payload)
and stop.  (On an exhausted error-free trace the loop is still blocked in
the next read and has emitted nothing further.) -/
def ReadLoop {PID : Type} (referenceID : PID) :
    List ReadResult → List (SocketMessage PID)
  | [] => []
  | ReadResult.ok msg :: rest =>
    { ReferenceID := referenceID, MsgType := SocketMessageType.Message,
      Message := msg } :: ReadLoop referenceID rest
  | ReadResult.readErr :: _ =>
    [{ ReferenceID := referenceID, MsgType := SocketMessageType.Disconnect,
       Message := [] }]

/-- One iteration of the `WriteLoop` select: a queued payload (with the
transport write's success bit — the source discards the write error), a
closed send channel, a ping tick, or context cancellation. -/
inductive WriteStep where
  | send (message : Bytes) (writeOk : Bool)
  | sendClosed
  | pingTick (writeOk : Bool)
  | ctxDone
  deriving DecidableEq, Repr

/-- A frame written on the transport by `WriteLoop`. -/
inductive Frame where
  | binary (message : Bytes)
  | ping
  deriving DecidableEq, Repr

/-- `WriteLoop` from `socket-session.go` over a finite trace of select
outcomes: queued payloads are written as binary frames whether or not the
write succeeds, ping ticks write ping frames, and a closed send channel or
context cancellation ends the loop.  The second component is the list of
events emitted on the room's message channel — the source never sends one
from this loop (its `unregisterMessage` send is commented out). -/
def WriteLoop {PID : Type} (referenceID : PID) :
    List WriteStep → List Frame × List (SocketMessage PID)
  | [] => ([], [])
  | WriteStep.send msg _ :: rest =>
    let (fs, es) := WriteLoop referenceID rest
    (Frame.binary msg :: fs, es)
  | WriteStep.sendClosed :: _ => ([], [])
  | WriteStep.pingTick _ :: rest =>
    let (fs, es) := WriteLoop referenceID rest
    (Frame.ping :: fs, es)
  | WriteStep.ctxDone :: _ => ([], [])

/-- A configuration supplying every callback. -/
def allCallbacks : Options Nat :=
  { OnConnect := true
    OnDisconnect := true
    OnRemove := true
    OnMessage := true
    CleanupPeriod := 0 }

/-- A configuration supplying no callback (every Go func field nil). -/
def noCallbacks : Options Nat :=
  { OnConnect := false
    OnDisconnect := false
    OnRemove := false
    OnMessage := false
    CleanupPeriod := 0 }

/-- An open room whose only member, 1, is disconnected (nil slot) with
`lastSeen` stamp 0. -/
def roomDisc1 : Room Nat :=
  { Status := RoomStatus.Open
    players := [(1, none)]
    lastSeen := [(1, 0)]
    cleanupPeriod := 30
    opts := allCallbacks }

/-- The disconnected-member room with no callbacks supplied. -/
def roomDiscNoCb : Room Nat :=
  { roomDisc1 with opts := noCallbacks }

/-- An open room whose only member, 1, is connected on session 5, with no
callbacks supplied. -/
def roomConnNoCb : Room Nat :=
  { Status := RoomStatus.Open
    players := [(1, some 5)]
    lastSeen := []
    cleanupPeriod := 30
    opts := noCallbacks }

/-- An open room whose only member, 1, is disconnected with a recorded
`lastSeen` stamp of 42. -/
def roomSeen42 : Room Nat :=
  { Status := RoomStatus.Open
    players := [(1, none)]
    lastSeen := [(1, 42)]
    cleanupPeriod := 30
    opts := allCallbacks }

/-- An open room with member 1 connected on session 2 and member 3
disconnected, last seen at 5. -/
def roomMixed : Room Nat :=
  { Status := RoomStatus.Open
    players := [(1, some 2), (3, none)]
    lastSeen := [(3, 5)]
    cleanupPeriod := 30
    opts := allCallbacks }

section MapLemmas

variable {K V : Type} [DecidableEq K]

theorem mapLookup_append (a b : List (K × V)) (id : K) :
    mapLookup (a ++ b) id =
      match mapLookup a id with
      | some v => some v
      | none => mapLookup b id := by
  induction a with
  | nil => simp [mapLookup]
  | cons e rest ih =>
    obtain ⟨k, v⟩ := e
    by_cases h : k = id <;> simp [mapLookup, h, ih]

theorem mapLookup_eq_none_iff (l : List (K × V)) (id : K) :
    mapLookup l id = none ↔ id ∉ l.map Prod.fst := by
  induction l with
  | nil => simp [mapLookup]
  | cons e rest ih =>
    obtain ⟨k, v⟩ := e
    by_cases h : k = id
    · subst h
      simp [mapLookup]
    · rw [List.map_cons]
      constructor
      · intro hnone hmem
        rcases List.mem_cons.mp hmem with h1 | h1
        · exact h h1.symm
        · exact ih.mp (by simpa [mapLookup, h] using hnone) h1
      · intro hmem
        have h2 : id ∉ rest.map Prod.fst :=
          fun hh => hmem (List.mem_cons_of_mem _ hh)
        simpa [mapLookup, h] using ih.mpr h2

theorem mapLookup_mem {l : List (K × V)} {id : K} {v : V}
    (h : mapLookup l id = some v) : (id, v) ∈ l := by
  induction l with
  | nil => simp [mapLookup] at h
  | cons e rest ih =>
    obtain ⟨k, w⟩ := e
    by_cases hk : k = id
    · subst hk
      simp [mapLookup] at h
      simp [h]
    · simp [mapLookup, hk] at h
      exact List.mem_cons_of_mem _ (ih h)

theorem mapLookup_mapInsert_self (l : List (K × V)) (k : K) (v : V) :
    mapLookup (mapInsert l k v) k = some v := by
  induction l with
  | nil => simp [mapInsert, mapLookup]
  | cons e rest ih =>
    obtain ⟨k', w⟩ := e
    by_cases h : k' = k <;> simp [mapInsert, mapLookup, h, ih]

theorem mapLookup_mapErase (l : List (K × V)) (hnd : (l.map Prod.fst).Nodup)
    (k id : K) :
    mapLookup (mapErase l k) id = if id = k then none else mapLookup l id := by
  induction l with
  | nil => by_cases h : id = k <;> simp [mapErase, mapLookup, h]
  | cons e rest ih =>
    obtain ⟨k', v'⟩ := e
    simp only [List.map_cons, List.nodup_cons] at hnd
    by_cases hk : k' = k
    · subst hk
      by_cases hid : id = k'
      · subst hid
        simp [mapErase, (mapLookup_eq_none_iff rest id).mpr hnd.1]
      · have hid' : ¬(k' = id) := fun h => hid h.symm
        simp [mapErase, mapLookup, hid, hid']
    · by_cases hid : k' = id
      · subst hid
        have hne : ¬(k' = k) := hk
        simp [mapErase, mapLookup, hne]
      · simp [mapErase, mapLookup, hk, hid, ih hnd.2]

theorem mapErase_keys_sublist (l : List (K × V)) (k : K) :
    ((mapErase l k).map Prod.fst).Sublist (l.map Prod.fst) := by
  induction l with
  | nil => simp [mapErase]
  | cons e rest ih =>
    obtain ⟨k', v'⟩ := e
    by_cases h : k' = k
    · simp only [mapErase, h, if_pos rfl]
      exact (List.sublist_cons_self _ _)
    · simp only [mapErase, h, if_neg h, List.map_cons]
      exact ih.cons₂ _

theorem mapLookup_mapEraseAll (l : List (K × V)) (keys : List K)
    (hnd : (l.map Prod.fst).Nodup) (id : K) :
    mapLookup (mapEraseAll l keys) id =
      if id ∈ keys then none else mapLookup l id := by
  induction keys generalizing l with
  | nil => simp [mapEraseAll]
  | cons k ks ih =>
    have hnd' : ((mapErase l k).map Prod.fst).Nodup :=
      (mapErase_keys_sublist l k).nodup hnd
    have step : mapEraseAll l (k :: ks) = mapEraseAll (mapErase l k) ks := rfl
    rw [step, ih (mapErase l k) hnd', mapLookup_mapErase l hnd k id]
    by_cases h1 : id ∈ ks <;> by_cases h2 : id = k <;> simp [h1, h2]

theorem mapLookup_filter (P : K × V → Bool) (l : List (K × V))
    (hnd : (l.map Prod.fst).Nodup) (id : K) :
    mapLookup (l.filter P) id =
      match mapLookup l id with
      | some v => if P (id, v) then some v else none
      | none => none := by
  induction l with
  | nil => simp [mapLookup]
  | cons e rest ih =>
    obtain ⟨k, v⟩ := e
    simp only [List.map_cons, List.nodup_cons] at hnd
    by_cases hk : k = id
    · subst hk
      have hrest : mapLookup rest k = none :=
        (mapLookup_eq_none_iff rest k).mpr hnd.1
      by_cases hP : P (k, v)
      · simp [List.filter_cons, hP, mapLookup]
      · have := ih hnd.2
        simp [List.filter_cons, hP, mapLookup, this, hrest]
    · by_cases hP : P (k, v)
      · simp [List.filter_cons, hP, mapLookup, hk, ih hnd.2]
      · simp [List.filter_cons, hP, mapLookup, hk, ih hnd.2]

theorem mem_filter_map_fst (P : K × V → Bool) (l : List (K × V))
    (hnd : (l.map Prod.fst).Nodup) (id : K) :
    id ∈ (l.filter P).map Prod.fst ↔
      ∃ v, mapLookup l id = some v ∧ P (id, v) = true := by
  induction l with
  | nil => simp [mapLookup]
  | cons e rest ih =>
    obtain ⟨k, v⟩ := e
    simp only [List.map_cons, List.nodup_cons] at hnd
    by_cases hk : k = id
    · subst hk
      have hrest : mapLookup rest k = none :=
        (mapLookup_eq_none_iff rest k).mpr hnd.1
      by_cases hP : P (k, v) = true
      · simp [List.filter_cons, hP, mapLookup]
      · rw [List.filter_cons, if_neg (by simpa using hP), ih hnd.2]
        simp [mapLookup, hrest, hP]
    · by_cases hP : P (k, v) = true
      · have hk' : ¬(k = id) := hk
        simp only [List.filter_cons, if_pos hP, List.map_cons, List.mem_cons,
          mapLookup, hk', if_false, ih hnd.2, if_neg hk']
        constructor
        · rintro (h | h)
          · exact absurd h.symm hk
          · exact h
        · exact fun h => Or.inr h
      · simp [List.filter_cons, hP, mapLookup, hk, ih hnd.2]

end MapLemmas

section LoopLemmas

variable {PID : Type} [DecidableEq PID]

/-- The cleanup sweep keeps exactly the non-stale entries, in order, and
collects the stale ids, in order. -/
theorem cleanUpSweep_eq (ls : List (PID × Int)) (cp now : Int)
    (l : List (PID × Option SessionId)) :
    cleanUpSweep ls cp now l =
      (l.filter (fun e => !(staleEntry ls cp now e)),
       (l.filter (staleEntry ls cp now)).map Prod.fst) := by
  induction l with
  | nil => rfl
  | cons e rest ih =>
    obtain ⟨pid, p⟩ := e
    by_cases h : staleEntry ls cp now (pid, p) = true <;>
      simp [cleanUpSweep, ih, List.filter_cons, h]

omit [DecidableEq PID] in
/-- The lock purge keeps exactly the connected entries and collects the
nil-session ids, in order. -/
theorem lockPurge_eq (l : List (PID × Option SessionId)) :
    lockPurge l =
      (l.filter (fun e => e.2.isSome),
       (l.filter (fun e => e.2.isNone)).map Prod.fst) := by
  induction l with
  | nil => rfl
  | cons e rest ih =>
    obtain ⟨pid, p⟩ := e
    cases p <;> simp [lockPurge, ih, List.filter_cons]

/-- The second `SetPlayers` loop keeps exactly the entries that are listed
or disconnected, closes the sessions of the dropped entries, and collects
the dropped ids. -/
theorem dropUnlisted_eq (keep : List PID) (l : List (PID × Option SessionId)) :
    dropUnlisted keep l =
      (l.filter (fun e => !(unlistedConnected keep e)),
       (l.filter (unlistedConnected keep)).filterMap (fun e => e.2),
       (l.filter (unlistedConnected keep)).map Prod.fst) := by
  induction l with
  | nil => rfl
  | cons e rest ih =>
    obtain ⟨pid, p⟩ := e
    by_cases h : pid ∈ keep
    · cases p <;> simp [dropUnlisted, ih, List.filter_cons, unlistedConnected, h]
    · cases p <;> simp [dropUnlisted, ih, List.filter_cons, unlistedConnected, h]

/-- Lookup through the first `SetPlayers` loop: present bindings are kept,
listed missing ids read as a nil slot. -/
theorem mapLookup_insertMissing (m : List (PID × Option SessionId))
    (list : List PID) (id : PID) :
    mapLookup (insertMissing m list) id =
      match mapLookup m id with
      | some v => some v
      | none => if id ∈ list then some none else none := by
  induction list generalizing m with
  | nil => cases h : mapLookup m id <;> simp [insertMissing, h]
  | cons pid rest ih =>
    by_cases h1 : (mapLookup m pid).isSome
    · have hstep : insertMissing m (pid :: rest) = insertMissing m rest := by
        simp [insertMissing, h1]
      rw [hstep, ih m]
      cases h : mapLookup m id with
      | some v => rfl
      | none =>
        by_cases h2 : id = pid
        · subst h2
          rw [h] at h1
          simp at h1
        · simp [List.mem_cons, h2]
    · have hstep : insertMissing m (pid :: rest) =
          insertMissing (m ++ [(pid, none)]) rest := by
        simp [insertMissing, h1]
      rw [hstep, ih (m ++ [(pid, none)]), mapLookup_append]
      cases h : mapLookup m id with
      | some v => rfl
      | none =>
        by_cases h2 : id = pid
        · subst h2
          simp [mapLookup]
        · have h2' : ¬(pid = id) := fun hh => h2 hh.symm
          simp [mapLookup, h2, h2', List.mem_cons]

/-- The first `SetPlayers` loop preserves distinctness of the map keys. -/
theorem insertMissing_keys_nodup (m : List (PID × Option SessionId))
    (list : List PID) (hnd : (m.map Prod.fst).Nodup) :
    ((insertMissing m list).map Prod.fst).Nodup := by
  induction list generalizing m with
  | nil => exact hnd
  | cons pid rest ih =>
    by_cases h1 : (mapLookup m pid).isSome
    · have hstep : insertMissing m (pid :: rest) = insertMissing m rest := by
        simp [insertMissing, h1]
      rw [hstep]
      exact ih m hnd
    · have h1' : mapLookup m pid = none := by
        cases h : mapLookup m pid
        · rfl
        · rw [h] at h1
          simp at h1
      have hmem : pid ∉ m.map Prod.fst := (mapLookup_eq_none_iff m pid).mp h1'
      have hstep : insertMissing m (pid :: rest) =
          insertMissing (m ++ [(pid, none)]) rest := by
        simp [insertMissing, h1]
      rw [hstep]
      refine ih _ ?_
      simp [List.nodup_append, hnd, hmem]

end LoopLemmas

/-- C1: `CanJoin` returns exactly per the spec's admission table, for every
room status and membership state: false when the status is Inactive, false
when the player is present and connected, false when the status is Locked
and the player is unknown, and true in every other case. -/
theorem CanJoin_admission_table {PID : Type} [DecidableEq PID]
    (r : Room PID) (id : PID) :
    CanJoin r id = true ↔
      r.Status ≠ RoomStatus.Inactive ∧
      (∀ s, mapLookup r.players id ≠ some (some s)) ∧
      ¬(r.Status = RoomStatus.Locked ∧ mapLookup r.players id = none) := by
  cases hs : r.Status <;>
    rcases h : mapLookup r.players id with _ | (_ | s) <;>
      simp [CanJoin, hs, h]

/-- C2 (code bug): `SendMessageToPlayer` returns silently with no delivery
for an absent member (id 2), but for a present disconnected member (id 1,
nil slot) the `ok` check passes and the source calls `Send` on the nil
interface — a runtime panic — instead of dropping the message silently. -/
theorem SendMessageToPlayer_nil_slot_panics :
    SendMessageToPlayer roomDisc1 2 [7] = ([], false) ∧
    SendMessageToPlayer roomDisc1 1 [7] = ([], true) := by
  constructor <;> rfl

/-- C3: over any finite read trace ending in an error, `ReadLoop` emits one
`Message` event per successfully read payload, in order, then exactly one
`Disconnect` event and stops; `WriteLoop` emits no event on the room
channel whatever happens, so the session emits exactly one `Disconnect` in
total. -/
theorem ReadLoop_WriteLoop_events {PID : Type} (id : PID)
    (reads : List Bytes) (wtrace : List WriteStep) :
    ReadLoop id (reads.map ReadResult.ok ++ [ReadResult.readErr]) =
      reads.map (fun m =>
        { ReferenceID := id, MsgType := SocketMessageType.Message,
          Message := m }) ++
        [{ ReferenceID := id, MsgType := SocketMessageType.Disconnect,
           Message := [] }] ∧
    (WriteLoop id wtrace).2 = [] ∧
    (ReadLoop id (reads.map ReadResult.ok ++ [ReadResult.readErr]) ++
        (WriteLoop id wtrace).2).countP
      (fun e => e.MsgType = SocketMessageType.Disconnect) = 1 := by
  have h1 : ReadLoop id (reads.map ReadResult.ok ++ [ReadResult.readErr]) =
      reads.map (fun m =>
        { ReferenceID := id, MsgType := SocketMessageType.Message,
          Message := m }) ++
        [{ ReferenceID := id, MsgType := SocketMessageType.Disconnect,
           Message := ([] : Bytes) }] := by
    induction reads with
    | nil => rfl
    | cons m rest ih => simp [ReadLoop, ih]
  have h2 : (WriteLoop id wtrace).2 = ([] : List (SocketMessage PID)) := by
    induction wtrace with
    | nil => rfl
    | cons s rest ih => cases s <;> simp [WriteLoop, ih]
  refine ⟨h1, h2, ?_⟩
  have hz : (reads.map (fun m =>
      ({ ReferenceID := id, MsgType := SocketMessageType.Message,
         Message := m } : SocketMessage PID))).countP
      (fun e => e.MsgType = SocketMessageType.Disconnect) = 0 := by
    apply List.countP_eq_zero.mpr
    intro e he
    obtain ⟨m, _, rfl⟩ := List.mem_map.mp he
    simp
  rw [h1, h2, List.append_nil, List.countP_append, hz, List.countP_cons]
  simp

/-- C5 (code bug): with no callbacks supplied, the `SetStatus(Locked)`
purge, the event loop's `Disconnect` handling, its `Message` handling, and
the `SetPlayers` removal path all spawn a nil callback and panic; only the
cleanup sweep guards its `OnRemove` call and completes without failing. -/
theorem nil_callbacks_panic :
    (SetStatus roomDiscNoCb RoomStatus.Locked).panicked = true ∧
    (handleEvent roomDiscNoCb
      { ReferenceID := 2, MsgType := SocketMessageType.Disconnect,
        Message := [] } 50).panicked = true ∧
    (handleEvent roomDiscNoCb
      { ReferenceID := 1, MsgType := SocketMessageType.Message,
        Message := [3] } 50).panicked = true ∧
    (SetPlayers roomConnNoCb []).panicked = true ∧
    (CleanUpPlayers roomDiscNoCb 100).panicked = false ∧
    (CleanUpPlayers roomDiscNoCb 100).room.players = [] := by
  refine ⟨rfl, rfl, rfl, rfl, rfl, rfl⟩

/-- C8 (code bug): `GetPlayerPresence` reports the member id and the
connected bit, but the source's struct literal never sets `LastSeen`: the
entry for the disconnected member 1 carries the zero value 0 although the
recorded last-seen stamp is 42. -/
theorem GetPlayerPresence_zero_lastSeen :
    GetPlayerPresence roomSeen42 =
      [{ ID := 1, IsConnected := false, LastSeen := 0 }] ∧
    mapLookup roomSeen42.lastSeen 1 = some 42 := by
  constructor <;> rfl

/-- C9 counterexample: a configured `CleanupPeriod` of -1 is below 0, so
per the claim the effective period should default to 30 s; `NewRoom` only
tests for equality with 0 and keeps the negative value. -/
theorem NewRoom_negative_cleanup_not_default :
    (NewRoom ({ allCallbacks with CleanupPeriod := -1 } : Options Nat)).cleanupPeriod = -1 ∧
    (NewRoom ({ allCallbacks with CleanupPeriod := -1 } : Options Nat)).cleanupPeriod ≠
      defaultCleanupPeriod := by
  constructor
  · rfl
  · decide

/-- C9 (amended): the room's effective cleanup period is the 30-second
default exactly when the configured `CleanupPeriod` is 0, and the
configured value itself — positive or negative — otherwise. -/
theorem NewRoom_cleanupPeriod {PID : Type} (opts : Options PID) :
    (opts.CleanupPeriod = 0 →
      (NewRoom opts).cleanupPeriod = defaultCleanupPeriod) ∧
    (opts.CleanupPeriod ≠ 0 →
      (NewRoom opts).cleanupPeriod = opts.CleanupPeriod) := by
  constructor <;> intro h <;> simp [NewRoom, h]

/-- C9 witness: at a configured period of 7 the effective period is 7, and
at 0 it is the 30-second default. -/
theorem NewRoom_cleanupPeriod_witness :
    ((7 : Int) ≠ 0 ∧
      (NewRoom ({ allCallbacks with CleanupPeriod := 7 } : Options Nat)).cleanupPeriod = 7) ∧
    ((0 : Int) = 0 ∧
      (NewRoom ({ allCallbacks with CleanupPeriod := 0 } : Options Nat)).cleanupPeriod =
        defaultCleanupPeriod) :=
  ⟨⟨by decide,
    (NewRoom_cleanupPeriod ({ allCallbacks with CleanupPeriod := 7 } : Options Nat)).2
      (by decide)⟩,
   ⟨rfl,
    (NewRoom_cleanupPeriod ({ allCallbacks with CleanupPeriod := 0 } : Options Nat)).1 rfl⟩⟩

/-- C10: processing a `Disconnect(id)` event in the room loop always ends
with `members[id] = ⊥` and `lastSeen[id] = now` — the Go map assignments
insert the entries even when `id` was absent beforehand. -/
theorem handleEvent_Disconnect_inserts {PID : Type} [DecidableEq PID]
    (r : Room PID) (pid : PID) (payload : Bytes) (now : Int) :
    mapLookup (handleEvent r
      { ReferenceID := pid, MsgType := SocketMessageType.Disconnect,
        Message := payload } now).room.players pid = some none ∧
    mapLookup (handleEvent r
      { ReferenceID := pid, MsgType := SocketMessageType.Disconnect,
        Message := payload } now).room.lastSeen pid = some now := by
  constructor <;> simp [handleEvent, mapLookup_mapInsert_self]

/-- Membership in a list of `OnRemove` invocations. -/
theorem mem_onRemove_map {PID : Type} (l : List PID) (id : PID) :
    CallEvent.OnRemove id ∈ l.map CallEvent.OnRemove ↔ id ∈ l := by
  constructor
  · intro h
    obtain ⟨a, ha, hae⟩ := List.mem_map.mp h
    cases hae
    exact ha
  · intro h
    exact List.mem_map.mpr ⟨id, h, rfl⟩

/-- C4 counterexample: sweeping the open room `{1 ↦ ⊥, lastSeen 0}` at time
100 removes member 1 from the `players` map and schedules `OnRemove(1)`,
but — contrary to the claim — the `lastSeen` entry survives. -/
theorem CleanUpPlayers_lastSeen_not_removed :
    (CleanUpPlayers roomDisc1 100).room.players = [] ∧
    (CleanUpPlayers roomDisc1 100).calls = [CallEvent.OnRemove 1] ∧
    mapLookup (CleanUpPlayers roomDisc1 100).room.lastSeen 1 = some 0 := by
  refine ⟨rfl, rfl, rfl⟩

/-- C4 (amended): the cleanup sweep changes nothing unless the status is
Open; when Open it removes from the `players` map exactly those ids with a
nil slot whose `lastSeen` stamp is more than `cleanupPeriod` old, schedules
`OnRemove(id)` for each removed id when the callback is supplied, retains
every other id unchanged, and leaves the `lastSeen` map wholly untouched. -/
theorem CleanUpPlayers_spec {PID : Type} [DecidableEq PID] (r : Room PID)
    (now : Int) (hnd : (r.players.map Prod.fst).Nodup) :
    (r.Status ≠ RoomStatus.Open →
      CleanUpPlayers r now = { room := r, calls := [], panicked := false }) ∧
    (r.Status = RoomStatus.Open →
      (CleanUpPlayers r now).room.lastSeen = r.lastSeen ∧
      (CleanUpPlayers r now).room.Status = r.Status ∧
      (∀ id, mapLookup (CleanUpPlayers r now).room.players id =
        (if mapLookup r.players id = some none ∧
            now - (mapLookup r.lastSeen id).getD 0 > r.cleanupPeriod
         then none else mapLookup r.players id)) ∧
      (∀ id, CallEvent.OnRemove id ∈ (CleanUpPlayers r now).calls ↔
        (r.opts.OnRemove = true ∧ mapLookup r.players id = some none ∧
         now - (mapLookup r.lastSeen id).getD 0 > r.cleanupPeriod)) ∧
      (CleanUpPlayers r now).panicked = false) := by
  constructor
  · intro h
    simp [CleanUpPlayers, h]
  · intro h
    have hne : ¬(r.Status ≠ RoomStatus.Open) := by simp [h]
    have hl : (CleanUpPlayers r now).room.lastSeen = r.lastSeen := by
      simp [CleanUpPlayers, hne, cleanUpSweep_eq]
    have hst : (CleanUpPlayers r now).room.Status = r.Status := by
      simp [CleanUpPlayers, hne, cleanUpSweep_eq]
    have hpl : (CleanUpPlayers r now).room.players =
        r.players.filter
          (fun e => !(staleEntry r.lastSeen r.cleanupPeriod now e)) := by
      simp [CleanUpPlayers, hne, cleanUpSweep_eq]
    have hcalls : (CleanUpPlayers r now).calls =
        (if r.opts.OnRemove then
          ((r.players.filter (staleEntry r.lastSeen r.cleanupPeriod now)).map
            Prod.fst).map CallEvent.OnRemove
        else []) := by
      simp [CleanUpPlayers, hne, cleanUpSweep_eq]
    have hpan : (CleanUpPlayers r now).panicked = false := by
      simp [CleanUpPlayers, hne, cleanUpSweep_eq]
    refine ⟨hl, hst, ?_, ?_, hpan⟩
    · intro id
      rw [hpl, mapLookup_filter _ _ hnd id]
      cases hv : mapLookup r.players id with
      | none => simp
      | some v =>
        by_cases hvn : v = none
        · subst hvn
          by_cases ht : now - (mapLookup r.lastSeen id).getD 0 > r.cleanupPeriod <;>
            simp [staleEntry, ht]
        · simp [staleEntry, hvn]
    · intro id
      rw [hcalls]
      by_cases hcb : r.opts.OnRemove = true
      · rw [if_pos hcb, mem_onRemove_map, mem_filter_map_fst _ _ hnd id]
        constructor
        · rintro ⟨v, hv, hstl⟩
          have hparts : v = none ∧
              now - (mapLookup r.lastSeen id).getD 0 > r.cleanupPeriod := by
            simpa [staleEntry] using hstl
          exact ⟨hcb, by rw [hv, hparts.1], hparts.2⟩
        · rintro ⟨-, hv, ht⟩
          exact ⟨none, hv, by simp [staleEntry, ht]⟩
      · rw [if_neg hcb]
        simp [hcb]

/-- C4 witness: on the open room `{1 ↦ ⊥, lastSeen 0}` swept at time 100,
the `lastSeen` map is unchanged and member 1 is gone from `players`. -/
theorem CleanUpPlayers_spec_witness :
    (roomDisc1.players.map Prod.fst).Nodup ∧
    (CleanUpPlayers roomDisc1 100).room.lastSeen = roomDisc1.lastSeen ∧
    mapLookup (CleanUpPlayers roomDisc1 100).room.players 1 = none := by
  have h := CleanUpPlayers_spec roomDisc1 100 (by decide)
  refine ⟨by decide, (h.2 rfl).1, ?_⟩
  rw [(h.2 rfl).2.2.1 1]
  decide

/-- C6: `SetStatus(s)` is a no-op when `s` is the current status; otherwise
it sets the status, and when the new status is `Locked` it removes every
disconnected member from both maps — scheduling `OnRemove(id)` for each
when the callback is supplied — while retaining every connected member;
transitions to other statuses leave the maps untouched. -/
theorem SetStatus_spec {PID : Type} [DecidableEq PID] (r : Room PID)
    (s : RoomStatus) (hnd : (r.players.map Prod.fst).Nodup)
    (hnd2 : (r.lastSeen.map Prod.fst).Nodup) :
    (r.Status = s →
      SetStatus r s = { room := r, calls := [], panicked := false }) ∧
    (r.Status ≠ s →
      (SetStatus r s).room.Status = s ∧
      (s = RoomStatus.Locked →
        (∀ id, mapLookup (SetStatus r s).room.players id =
          (match mapLookup r.players id with
           | some (some sid) => some (some sid)
           | _ => none)) ∧
        (∀ id, mapLookup (SetStatus r s).room.lastSeen id =
          (if mapLookup r.players id = some none then none
           else mapLookup r.lastSeen id)) ∧
        (r.opts.OnRemove = true →
          ∀ id, CallEvent.OnRemove id ∈ (SetStatus r s).calls ↔
            mapLookup r.players id = some none)) ∧
      (s ≠ RoomStatus.Locked →
        (SetStatus r s).room.players = r.players ∧
        (SetStatus r s).room.lastSeen = r.lastSeen ∧
        (SetStatus r s).calls = [])) := by
  constructor
  · intro h
    simp [SetStatus, h]
  · intro hne
    by_cases hs : s = RoomStatus.Locked
    · subst hs
      have hpl : (SetStatus r RoomStatus.Locked).room.players =
          r.players.filter (fun e => e.2.isSome) := by
        simp [SetStatus, hne, lockPurge_eq]
      have hls : (SetStatus r RoomStatus.Locked).room.lastSeen =
          mapEraseAll r.lastSeen
            ((r.players.filter (fun e => e.2.isNone)).map Prod.fst) := by
        simp [SetStatus, hne, lockPurge_eq]
      have hstat : (SetStatus r RoomStatus.Locked).room.Status =
          RoomStatus.Locked := by
        simp [SetStatus, hne, lockPurge_eq]
      have hcalls : (SetStatus r RoomStatus.Locked).calls =
          (if r.opts.OnRemove then
            ((r.players.filter (fun e => e.2.isNone)).map Prod.fst).map
              CallEvent.OnRemove
          else []) := by
        simp [SetStatus, hne, lockPurge_eq]
      refine ⟨hstat, ?_, fun hcon => absurd rfl hcon⟩
      intro _
      refine ⟨?_, ?_, ?_⟩
      · intro id
        rw [hpl, mapLookup_filter _ _ hnd id]
        cases hv : mapLookup r.players id with
        | none => simp
        | some v => cases v <;> simp
      · intro id
        rw [hls, mapLookup_mapEraseAll _ _ hnd2 id]
        by_cases hv : mapLookup r.players id = some none
        · have hmem : id ∈ (r.players.filter (fun e => e.2.isNone)).map Prod.fst :=
            (mem_filter_map_fst _ _ hnd id).mpr ⟨none, hv, rfl⟩
          rw [if_pos hmem, if_pos hv]
        · have hnmem : id ∉ (r.players.filter (fun e => e.2.isNone)).map Prod.fst := by
            intro hmem
            obtain ⟨v, hv2, hvn⟩ := (mem_filter_map_fst _ _ hnd id).mp hmem
            have hvnone : v = none := by
              cases v
              · rfl
              · simp at hvn
            subst hvnone
            exact hv hv2
          rw [if_neg hnmem, if_neg hv]
      · intro hcb id
        rw [hcalls, if_pos hcb, mem_onRemove_map, mem_filter_map_fst _ _ hnd id]
        constructor
        · rintro ⟨v, hv, hvn⟩
          have hvnone : v = none := by
            cases v
            · rfl
            · simp at hvn
          subst hvnone
          exact hv
        · intro hv
          exact ⟨none, hv, rfl⟩
    · have hpl : (SetStatus r s).room.players = r.players := by
        simp [SetStatus, hne, hs]
      have hls : (SetStatus r s).room.lastSeen = r.lastSeen := by
        simp [SetStatus, hne, hs]
      have hstat : (SetStatus r s).room.Status = s := by
        simp [SetStatus, hne, hs]
      have hcalls : (SetStatus r s).calls = [] := by
        simp [SetStatus, hne, hs]
      exact ⟨hstat, fun hcon => absurd hcon hs, fun _ => ⟨hpl, hls, hcalls⟩⟩

/-- C6 witness: locking the open room `{1 ↦ session 2, 3 ↦ ⊥}` keeps the
connected member 1, removes the disconnected member 3 from both maps, and
schedules `OnRemove(3)`. -/
theorem SetStatus_spec_witness :
    ((roomMixed.players.map Prod.fst).Nodup ∧
     (roomMixed.lastSeen.map Prod.fst).Nodup ∧
     roomMixed.Status ≠ RoomStatus.Locked) ∧
    mapLookup (SetStatus roomMixed RoomStatus.Locked).room.players 1 =
      some (some 2) ∧
    mapLookup (SetStatus roomMixed RoomStatus.Locked).room.players 3 = none ∧
    mapLookup (SetStatus roomMixed RoomStatus.Locked).room.lastSeen 3 = none ∧
    CallEvent.OnRemove 3 ∈ (SetStatus roomMixed RoomStatus.Locked).calls := by
  have h := SetStatus_spec roomMixed RoomStatus.Locked (by decide) (by decide)
  have h2 := (h.2 (by decide)).2.1 rfl
  refine ⟨⟨by decide, by decide, by decide⟩, ?_, ?_, ?_, ?_⟩
  · rw [h2.1 1]
    decide
  · rw [h2.1 3]
    decide
  · rw [h2.2.1 3]
    decide
  · exact (h2.2.2 rfl 3).mpr (by decide)

/-- C7 counterexample: `SetPlayers []` on the open room `{1 ↦ ⊥}` must, per
the claim, remove member 1 from both maps and schedule `OnRemove(1)`; the
source's removal loop skips nil-session members (`continue`), retaining the
entry in both maps and scheduling nothing. -/
theorem SetPlayers_disconnected_retained :
    (SetPlayers roomDisc1 []).room.players = [(1, none)] ∧
    (SetPlayers roomDisc1 []).calls = [] ∧
    (SetPlayers roomDisc1 []).room.lastSeen = [(1, 0)] := by
  refine ⟨rfl, rfl, rfl⟩

/-- C7 (amended): after `SetPlayers(list)` every id in `list` is present —
previously-absent ids inserted with a nil slot, previously-present bindings
unchanged; a *connected* member not in `list` is removed from both maps,
its session closed and `OnRemove(id)` scheduled when the callback is
supplied; a *disconnected* member not in `list` is retained with its nil
slot. -/
theorem SetPlayers_spec {PID : Type} [DecidableEq PID] (r : Room PID)
    (list : List PID) (hnd : (r.players.map Prod.fst).Nodup)
    (hnd2 : (r.lastSeen.map Prod.fst).Nodup) :
    (∀ id ∈ list, mapLookup (SetPlayers r list).room.players id =
      some ((mapLookup r.players id).getD none)) ∧
    (∀ id ∉ list, mapLookup (SetPlayers r list).room.players id =
      (match mapLookup r.players id with
       | some none => some none
       | _ => none)) ∧
    (∀ id, mapLookup (SetPlayers r list).room.lastSeen id =
      (if id ∉ list ∧ ((mapLookup r.players id).getD none).isSome = true
       then none else mapLookup r.lastSeen id)) ∧
    (r.opts.OnRemove = true →
      ∀ id, CallEvent.OnRemove id ∈ (SetPlayers r list).calls ↔
        (id ∉ list ∧ ∃ sid, mapLookup r.players id = some (some sid))) ∧
    (∀ id sid, id ∉ list → mapLookup r.players id = some (some sid) →
      sid ∈ (SetPlayers r list).closed) := by
  have hnd1 : ((insertMissing r.players list).map Prod.fst).Nodup :=
    insertMissing_keys_nodup r.players list hnd
  have hpl : (SetPlayers r list).room.players =
      (insertMissing r.players list).filter
        (fun e => !(unlistedConnected list e)) := by
    simp [SetPlayers, dropUnlisted_eq]
  have hls : (SetPlayers r list).room.lastSeen =
      mapEraseAll r.lastSeen
        (((insertMissing r.players list).filter (unlistedConnected list)).map
          Prod.fst) := by
    simp [SetPlayers, dropUnlisted_eq]
  have hcalls : (SetPlayers r list).calls =
      (if r.opts.OnRemove then
        (((insertMissing r.players list).filter (unlistedConnected list)).map
          Prod.fst).map CallEvent.OnRemove
      else []) := by
    simp [SetPlayers, dropUnlisted_eq]
  have hclosed : (SetPlayers r list).closed =
      ((insertMissing r.players list).filter (unlistedConnected list)).filterMap
        (fun e => e.2) := by
    simp [SetPlayers, dropUnlisted_eq]
  have hrem : ∀ id, (id ∈ ((insertMissing r.players list).filter
        (unlistedConnected list)).map Prod.fst) ↔
      (id ∉ list ∧ ∃ sid, mapLookup r.players id = some (some sid)) := by
    intro id
    rw [mem_filter_map_fst _ _ hnd1 id]
    constructor
    · rintro ⟨v, hv, huc⟩
      have h1 : ¬(id ∈ list) ∧ v.isSome = true := by
        simpa [unlistedConnected] using huc
      obtain ⟨sid, rfl⟩ := Option.isSome_iff_exists.mp h1.2
      have h2 := mapLookup_insertMissing r.players list id
      rw [hv] at h2
      refine ⟨h1.1, sid, ?_⟩
      cases h3 : mapLookup r.players id with
      | some w =>
        rw [h3] at h2
        injection h2 with h4
        rw [← h4]
      | none =>
        rw [h3] at h2
        rw [if_neg h1.1] at h2
        simp at h2
    · rintro ⟨hnl, sid, hv⟩
      refine ⟨some sid, ?_, ?_⟩
      · have h2 := mapLookup_insertMissing r.players list id
        rw [hv] at h2
        exact h2
      · simp [unlistedConnected, hnl]
  refine ⟨?_, ?_, ?_, ?_, ?_⟩
  · intro id hid
    rw [hpl, mapLookup_filter _ _ hnd1 id]
    have h2 := mapLookup_insertMissing r.players list id
    cases h3 : mapLookup r.players id with
    | some v =>
      rw [h3] at h2
      rw [h2]
      have huc : unlistedConnected list (id, v) = false := by
        simp [unlistedConnected, hid]
      simp [huc]
    | none =>
      rw [h3] at h2
      rw [if_pos hid] at h2
      rw [h2]
      have huc : unlistedConnected list (id, none) = false := by
        simp [unlistedConnected, hid]
      simp [huc]
  · intro id hid
    rw [hpl, mapLookup_filter _ _ hnd1 id]
    have h2 := mapLookup_insertMissing r.players list id
    cases h3 : mapLookup r.players id with
    | some v =>
      rw [h3] at h2
      rw [h2]
      cases v with
      | none =>
        have huc : unlistedConnected list (id, none) = false := by
          simp [unlistedConnected]
        simp [huc]
      | some sid =>
        have huc : unlistedConnected list (id, some sid) = true := by
          simp [unlistedConnected, hid]
        simp [huc]
    | none =>
      rw [h3] at h2
      rw [if_neg hid] at h2
      rw [h2]
  · intro id
    have hconn : (((mapLookup r.players id).getD none).isSome = true) ↔
        (∃ sid, mapLookup r.players id = some (some sid)) := by
      cases h : mapLookup r.players id with
      | none => simp
      | some v => cases v <;> simp
    rw [hls, mapLookup_mapEraseAll _ _ hnd2 id]
    by_cases hcond : id ∉ list ∧ ((mapLookup r.players id).getD none).isSome = true
    · rw [if_pos ((hrem id).mpr ⟨hcond.1, hconn.mp hcond.2⟩), if_pos hcond]
    · have hcond2 : ¬(id ∉ list ∧
          ∃ sid, mapLookup r.players id = some (some sid)) := by
        intro hc
        exact hcond ⟨hc.1, hconn.mpr hc.2⟩
      rw [if_neg (fun hm => hcond2 ((hrem id).mp hm)), if_neg hcond]
  · intro hcb id
    rw [hcalls, if_pos hcb, mem_onRemove_map]
    exact hrem id
  · intro id sid hid hv
    rw [hclosed]
    have h2 := mapLookup_insertMissing r.players list id
    rw [hv] at h2
    have h2' : mapLookup (insertMissing r.players list) id = some (some sid) := h2
    have hmem : (id, some sid) ∈ insertMissing r.players list := mapLookup_mem h2'
    have hmemf : (id, some sid) ∈
        (insertMissing r.players list).filter (unlistedConnected list) := by
      rw [List.mem_filter]
      exact ⟨hmem, by simp [unlistedConnected, hid]⟩
    exact List.mem_filterMap.mpr ⟨(id, some sid), hmemf, rfl⟩

/-- C7 witness: on the room `{1 ↦ session 2, 3 ↦ ⊥}` and list `[3, 4]`, the
new id 4 is inserted disconnected, the connected unlisted member 1 is
removed with its session 2 closed and `OnRemove(1)` scheduled. -/
theorem SetPlayers_spec_witness :
    ((roomMixed.players.map Prod.fst).Nodup ∧
     (roomMixed.lastSeen.map Prod.fst).Nodup) ∧
    mapLookup (SetPlayers roomMixed [3, 4]).room.players 4 = some none ∧
    mapLookup (SetPlayers roomMixed [3, 4]).room.players 1 = none ∧
    CallEvent.OnRemove 1 ∈ (SetPlayers roomMixed [3, 4]).calls ∧
    2 ∈ (SetPlayers roomMixed [3, 4]).closed := by
  have h := SetPlayers_spec roomMixed [3, 4] (by decide) (by decide)
  refine ⟨⟨by decide, by decide⟩, ?_, ?_, ?_, ?_⟩
  · rw [h.1 4 (by decide)]
    decide
  · rw [h.2.1 1 (by decide)]
    decide
  · exact (h.2.2.2.1 rfl 1).mpr ⟨by decide, 2, by decide⟩
  · exact h.2.2.2.2 1 2 (by decide) (by decide)

end GoRoom
